import Mathlib

/-!
Shallow embedding of `src/tools/splines.py` (the SplineSegmentEvaluator of the
spec).  Python floats are modelled as real numbers; a dynamically typed Python
value flowing through the evaluator is modelled by `PyVal` (a scalar or a 2-D
point); numpy's elementwise broadcasting of `*` and `+` on length-2 vectors is
modelled by `pyMul`/`pyAdd`; Python's `x ** y` on nonnegative floats is
modelled by `Real.rpow`; code that can raise an exception returns `Except`.
-/

/-- A dynamically typed value passed through the evaluator: either a scalar
float (what `catmull_rom` passes, e.g. `p_x[0]`) or a 2-D point of coordinates
x, y (what the `tuple`-annotated parameters of `catmull_rom_point` and the
unpacking `xi, yi = pi` in `tj` expect, treated as a numpy 2-vector so that
the scalar-times-point blends broadcast elementwise). -/
inductive PyVal : Type
  | num (x : ℝ)
  | pair (x y : ℝ)

/-- The Python exceptions the module can raise: `typeError` for unpacking a
scalar as a pair (`xi, yi = pi` on a float), `valueError` for `np.linspace`
with a negative sample count, `assertionError` for a failed `assert`.  The
blending lines raise nothing: numpy division by a zero-length knot interval
only warns and yields non-finite values (see `blend`). -/
inductive PyErr : Type
  | typeError
  | valueError
  | assertionError
deriving DecidableEq

/-- Scalar times a value, broadcasting over a 2-vector (numpy semantics for
lines 17-22 of the source). -/
noncomputable def pyMul (c : ℝ) : PyVal → PyVal
  | .num x => .num (c * x)
  | .pair x y => .pair (c * x) (c * y)

/-- Sum of two values, with numpy broadcast semantics. -/
noncomputable def pyAdd : PyVal → PyVal → PyVal
  | .num a, .num b => .num (a + b)
  | .num a, .pair x y => .pair (a + x) (a + y)
  | .pair x y, .num b => .pair (x + b) (y + b)
  | .pair x y, .pair z w => .pair (x + z) (y + w)

/-- Chord length of source line 9: `l = (dx ** 2 + dy ** 2) ** 0.5` with
`dx, dy = xj - xi, yj - yi` (line 8). -/
noncomputable def chordP (xi yi xj yj : ℝ) : ℝ :=
  ((xj - xi) ^ 2 + (yj - yi) ^ 2) ^ (0.5 : ℝ)

/-- The value `tj` computes on genuine 2-D points (source lines 6-10):
`ti + l ** alpha`. -/
noncomputable def tjP (alpha ti xi yi xj yj : ℝ) : ℝ :=
  ti + chordP xi yi xj yj ^ alpha

/-- The inner function `tj` of `catmull_rom_point` (source lines 5-10).
`alpha` is the enclosing function's parameter captured by the closure.  The
unpacking `xi, yi = pi` (and `xj, yj = pj`) succeeds only on a 2-D point; on a
scalar Python raises a TypeError. -/
noncomputable def tj (alpha ti : ℝ) (pi pj : PyVal) : Except PyErr ℝ :=
  match pi, pj with
  | .pair xi yi, .pair xj yj => .ok (tjP alpha ti xi yi xj yj)
  | _, _ => .error .typeError

/-- One weighted-sum line of source lines 17-22, of the shape
`(thi - t) / (thi - tlo) * u + (t - tlo) / (thi - tlo) * v`, under the numpy
2-vector broadcast semantics (the mode in which the evaluator can return
points at all).  The knots are then numpy scalars, so division by a
zero-length knot interval does not raise: numpy emits a RuntimeWarning and
yields non-finite values (inf or nan), those propagate through the remaining
products and sums, and evaluation continues to a meaningless result.  The
reals have no inf or nan, so the model uses Lean's total division (value 0 at
a zero denominator) as the stand-in; the theorems below use the value of a
blend over a zero-length interval only through the fact that it is then
determined by the shapes of its operands alone, never as a meaningful
point. -/
noncomputable def blend (u v : PyVal) (tlo thi t : ℝ) : PyVal :=
  pyAdd (pyMul ((thi - t) / (thi - tlo)) u)
        (pyMul ((t - tlo) / (thi - tlo)) v)

/-- The knot computation of source lines 12-15: `t0 = 0.0` and three
successive applications of `tj`. -/
noncomputable def knots (p0 p1 p2 p3 : PyVal) (alpha : ℝ) : Except PyErr (ℝ × ℝ × ℝ) :=
  match tj alpha 0 p0 p1 with
  | .error e => .error e
  | .ok t1 =>
    match tj alpha t1 p1 p2 with
    | .error e => .error e
    | .ok t2 =>
      match tj alpha t2 p2 p3 with
      | .error e => .error e
      | .ok t3 => .ok (t1, t2, t3)

/-- The blending pyramid of source lines 17-22 (`a1`, `a2`, `a3`, `b1`, `b2`,
`p`), evaluated at parameter `t` exactly as written: every blend receives the
caller's `t` unchanged, and no line can raise (see `blend`). -/
noncomputable def blends (p0 p1 p2 p3 : PyVal) (t t0 t1 t2 t3 : ℝ) : PyVal :=
  let a1 := blend p0 p1 t0 t1 t
  let a2 := blend p1 p2 t1 t2 t
  let a3 := blend p2 p3 t2 t3 t
  let b1 := blend a1 a2 t0 t2 t
  let b2 := blend a2 a3 t1 t3 t
  blend b1 b2 t1 t2 t

/-- `catmull_rom_point` (source lines 4-24): compute the knots `t0 = 0, t1,
t2, t3`, then the two-level blend pyramid at the caller's `t`.  The only
error source is the unpacking inside `tj` (a TypeError on scalar inputs);
the blending phase always returns a value. -/
noncomputable def catmull_rom_point (p0 p1 p2 p3 : PyVal) (t alpha : ℝ) :
    Except PyErr PyVal :=
  match knots p0 p1 p2 p3 alpha with
  | .error e => .error e
  | .ok (t1, t2, t3) => .ok (blends p0 p1 p2 p3 t 0 t1 t2 t3)

/-- Modelled from the spec (section 4.2 step 2): the same evaluator except
that the caller's normalized `t` is first remapped into the central knot
interval, so every blend uses the evaluation parameter `t1 + t * (t2 - t1)`.
This definition follows the spec's words and exists only to be compared with
`catmull_rom_point`, which is translated from the source. -/
noncomputable def catmull_rom_point_remapSpec (p0 p1 p2 p3 : PyVal)
    (t alpha : ℝ) : Except PyErr PyVal :=
  match knots p0 p1 p2 p3 alpha with
  | .error e => .error e
  | .ok (t1, t2, t3) => .ok (blends p0 p1 p2 p3 (t1 + t * (t2 - t1)) 0 t1 t2 t3)

/-- The first knot `t1 = tj(t0, p0, p1)` with `t0 = 0`, on 2-D points. -/
noncomputable def knot1 (alpha x0 y0 x1 y1 : ℝ) : ℝ := tjP alpha 0 x0 y0 x1 y1

/-- The second knot `t2 = tj(t1, p1, p2)` on 2-D points. -/
noncomputable def knot2 (alpha x0 y0 x1 y1 x2 y2 : ℝ) : ℝ :=
  tjP alpha (knot1 alpha x0 y0 x1 y1) x1 y1 x2 y2

/-- The third knot `t3 = tj(t2, p2, p3)` on 2-D points. -/
noncomputable def knot3 (alpha x0 y0 x1 y1 x2 y2 x3 y3 : ℝ) : ℝ :=
  tjP alpha (knot2 alpha x0 y0 x1 y1 x2 y2) x2 y2 x3 y3

/-- `np.linspace(0., 1., res, endpoint=False)`: for `res < 0` numpy raises a
ValueError; otherwise the samples are `k / res` for `k = 0, .., res - 1`
(step `(1 - 0) / res`, endpoint excluded; for `res = 0` the list is empty). -/
noncomputable def npLinspace01 (res : ℤ) : Except PyErr (List ℝ) :=
  if res < 0 then .error .valueError
  else .ok ((List.range res.toNat).map (fun k => (k : ℝ) / (res : ℝ)))

/-- A Python list comprehension over parameter values: evaluate in order,
propagating the first exception. -/
noncomputable def listComp (f : ℝ → Except PyErr PyVal) :
    List ℝ → Except PyErr (List PyVal)
  | [] => .ok []
  | t :: ts =>
    match f t with
    | .error e => .error e
    | .ok p =>
      match listComp f ts with
      | .error e => .error e
      | .ok ps => .ok (p :: ps)

/-- `catmull_rom` (source lines 39-45): assert that both input sequences have
length 4 (`len(p_x) == len(p_y) == 4`), build the sample grid, then compute
the two output channels.  Both comprehensions (source lines 42 and 43) pass
`p_x[0], p_x[1], p_x[2], p_x[3]` to `catmull_rom_point`; the y-channel on
line 43 also reads `p_x`, not `p_y`. -/
noncomputable def catmull_rom (p_x p_y : List PyVal) (res : ℤ) (alpha : ℝ) :
    Except PyErr (List PyVal × List PyVal) :=
  if p_x.length = p_y.length ∧ p_y.length = 4 then
    match npLinspace01 res with
    | .error e => .error e
    | .ok ts =>
      match listComp (fun t => catmull_rom_point (p_x.getD 0 (.num 0))
          (p_x.getD 1 (.num 0)) (p_x.getD 2 (.num 0)) (p_x.getD 3 (.num 0))
          t alpha) ts with
      | .error e => .error e
      | .ok x =>
        match listComp (fun t => catmull_rom_point (p_x.getD 0 (.num 0))
            (p_x.getD 1 (.num 0)) (p_x.getD 2 (.num 0)) (p_x.getD 3 (.num 0))
            t alpha) ts with
        | .error e => .error e
        | .ok y => .ok (x, y)
  else .error .assertionError

theorem tj_pair (alpha ti xi yi xj yj : ℝ) :
    tj alpha ti (.pair xi yi) (.pair xj yj) = .ok (tjP alpha ti xi yi xj yj) :=
  rfl

theorem tj_num_left (alpha ti x : ℝ) (pj : PyVal) :
    tj alpha ti (.num x) pj = .error .typeError :=
  rfl

theorem knots_pair (alpha x0 y0 x1 y1 x2 y2 x3 y3 : ℝ) :
    knots (.pair x0 y0) (.pair x1 y1) (.pair x2 y2) (.pair x3 y3) alpha =
      .ok (knot1 alpha x0 y0 x1 y1, knot2 alpha x0 y0 x1 y1 x2 y2,
           knot3 alpha x0 y0 x1 y1 x2 y2 x3 y3) :=
  rfl

theorem sq_add_sq_pos_of_ne {xi yi xj yj : ℝ} (h : ¬(xi = xj ∧ yi = yj)) :
    0 < (xj - xi) ^ 2 + (yj - yi) ^ 2 := by
  by_cases hx : xi = xj
  · have hy : yi ≠ yj := fun hyy => h ⟨hx, hyy⟩
    have hdy : yj - yi ≠ 0 := sub_ne_zero.mpr (Ne.symm hy)
    have hpos : 0 < (yj - yi) ^ 2 :=
      lt_of_le_of_ne (sq_nonneg _) (Ne.symm (pow_ne_zero 2 hdy))
    exact add_pos_of_nonneg_of_pos (sq_nonneg _) hpos
  · have hdx : xj - xi ≠ 0 := sub_ne_zero.mpr (Ne.symm hx)
    have hpos : 0 < (xj - xi) ^ 2 :=
      lt_of_le_of_ne (sq_nonneg _) (Ne.symm (pow_ne_zero 2 hdx))
    exact add_pos_of_pos_of_nonneg hpos (sq_nonneg _)

theorem chordP_pos {xi yi xj yj : ℝ} (h : ¬(xi = xj ∧ yi = yj)) :
    0 < chordP xi yi xj yj :=
  Real.rpow_pos_of_pos (sq_add_sq_pos_of_ne h) _

theorem chordP_self (x y : ℝ) : chordP x y x y = 0 := by
  have h0 : ((x - x) ^ 2 + (y - y) ^ 2 : ℝ) = 0 := by
    rw [sub_self, sub_self]; norm_num
  rw [chordP, h0]
  exact Real.zero_rpow (by norm_num)

theorem incr_pos {xi yi xj yj : ℝ} (h : ¬(xi = xj ∧ yi = yj)) (alpha : ℝ) :
    0 < chordP xi yi xj yj ^ alpha :=
  Real.rpow_pos_of_pos (chordP_pos h) _

theorem tjP_lt {xi yi xj yj : ℝ} (h : ¬(xi = xj ∧ yi = yj)) (alpha ti : ℝ) :
    ti < tjP alpha ti xi yi xj yj := by
  have := incr_pos h alpha
  rw [tjP]; linarith

theorem blend_lo {tlo thi : ℝ} (h : thi - tlo ≠ 0) (a b : ℝ) (v : PyVal) :
    blend (.pair a b) v tlo thi tlo = .pair a b := by
  unfold blend
  rw [sub_self, zero_div, div_self h]
  cases v <;> simp [pyMul, pyAdd]

theorem blend_hi {tlo thi : ℝ} (h : thi - tlo ≠ 0) (u : PyVal) (c d : ℝ) :
    blend u (.pair c d) tlo thi thi = .pair c d := by
  unfold blend
  rw [sub_self, zero_div, div_self h]
  cases u <;> simp [pyMul, pyAdd]

theorem blend_same {tlo thi : ℝ} (h : thi - tlo ≠ 0) (a b t : ℝ) :
    blend (.pair a b) (.pair a b) tlo thi t = .pair a b := by
  unfold blend
  have hc : (thi - t) / (thi - tlo) + (t - tlo) / (thi - tlo) = 1 := by
    field_simp
  simp only [pyMul, pyAdd, PyVal.pair.injEq]
  constructor <;> rw [← add_mul, hc, one_mul]

theorem blend_pair_pair (a b c d tlo thi t : ℝ) :
    ∃ A B, blend (.pair a b) (.pair c d) tlo thi t = .pair A B :=
  ⟨_, _, rfl⟩

theorem blend_zero_denom (u v : PyVal) (tlo thi t : ℝ) (h : thi - tlo = 0) :
    blend u v tlo thi t = pyAdd (pyMul 0 u) (pyMul 0 v) := by
  unfold blend
  rw [h, div_zero, div_zero]

theorem blends_pair_zero_mid (x0 y0 x1 y1 x2 y2 x3 y3 t t0 t1 t2 t3 : ℝ)
    (h : t2 - t1 = 0) :
    blends (.pair x0 y0) (.pair x1 y1) (.pair x2 y2) (.pair x3 y3)
      t t0 t1 t2 t3 = .pair 0 0 := by
  obtain ⟨a1x, a1y, ha1⟩ := blend_pair_pair x0 y0 x1 y1 t0 t1 t
  obtain ⟨a2x, a2y, ha2⟩ := blend_pair_pair x1 y1 x2 y2 t1 t2 t
  obtain ⟨a3x, a3y, ha3⟩ := blend_pair_pair x2 y2 x3 y3 t2 t3 t
  simp only [blends]
  rw [ha1, ha2, ha3]
  obtain ⟨b1x, b1y, hb1⟩ := blend_pair_pair a1x a1y a2x a2y t0 t2 t
  obtain ⟨b2x, b2y, hb2⟩ := blend_pair_pair a2x a2y a3x a3y t1 t3 t
  rw [hb1, hb2, blend_zero_denom _ _ _ _ _ h]
  simp [pyMul, pyAdd]

/-- C5: for every ControlQuad of 2-D points whose consecutive points are
pairwise distinct and every alpha in [0,1], the knot sequence derived by the
evaluator (t0 fixed at 0, each next knot adding the Euclidean inter-point
distance raised to alpha) satisfies t0 = 0 < t1 < t2 < t3. -/
theorem knot_sequence_strict_mono
    (x0 y0 x1 y1 x2 y2 x3 y3 alpha t1 t2 t3 : ℝ)
    (_halpha : 0 ≤ alpha ∧ alpha ≤ 1)
    (h01 : (PyVal.pair x0 y0) ≠ .pair x1 y1)
    (h12 : (PyVal.pair x1 y1) ≠ .pair x2 y2)
    (h23 : (PyVal.pair x2 y2) ≠ .pair x3 y3)
    (hk : knots (.pair x0 y0) (.pair x1 y1) (.pair x2 y2) (.pair x3 y3) alpha
          = .ok (t1, t2, t3)) :
    0 < t1 ∧ t1 < t2 ∧ t2 < t3 := by
  have d01 : ¬(x0 = x1 ∧ y0 = y1) := by
    rintro ⟨hx, hy⟩; exact h01 (by rw [hx, hy])
  have d12 : ¬(x1 = x2 ∧ y1 = y2) := by
    rintro ⟨hx, hy⟩; exact h12 (by rw [hx, hy])
  have d23 : ¬(x2 = x3 ∧ y2 = y3) := by
    rintro ⟨hx, hy⟩; exact h23 (by rw [hx, hy])
  rw [knots_pair] at hk
  simp only [Except.ok.injEq, Prod.mk.injEq] at hk
  obtain ⟨e1, e2, e3⟩ := hk
  subst e1; subst e2; subst e3
  exact ⟨tjP_lt d01 alpha 0, tjP_lt d12 alpha _, tjP_lt d23 alpha _⟩

/-- Witness for C5 at the quad (0,0), (1,0), (2,1), (3,3) with alpha = 0:
the derived knots are 1, 2, 3. -/
theorem knot_sequence_strict_mono_witness :
    (knots (.pair 0 0) (.pair 1 0) (.pair 2 1) (.pair 3 3) 0
      = .ok ((1 : ℝ), (2 : ℝ), (3 : ℝ))) ∧
    ((0:ℝ) < 1 ∧ (1:ℝ) < 2 ∧ (2:ℝ) < 3) := by
  have hk : knots (.pair (0:ℝ) 0) (.pair 1 0) (.pair 2 1) (.pair 3 3) 0
      = .ok ((1 : ℝ), (2 : ℝ), (3 : ℝ)) := by
    rw [knots_pair]
    norm_num [knot1, knot2, knot3, tjP, Real.rpow_zero]
  exact ⟨hk, knot_sequence_strict_mono 0 0 1 0 2 1 3 3 0 1 2 3
    (by norm_num) (by norm_num [PyVal.pair.injEq])
    (by norm_num [PyVal.pair.injEq]) (by norm_num [PyVal.pair.injEq]) hk⟩

/-- C6 counterexample: at alpha = 0 a coincident pair of points gives
`tj = ti + 0 ** 0 = ti + 1`, not `ti`: with ti = 0 the knot-spacing
sub-routine returns 1, so the claim fails for alpha = 0. -/
theorem tj_coincident_alpha_zero_ne :
    tj 0 0 (.pair 0 0) (.pair 0 0) ≠ .ok (0 : ℝ) := by
  rw [tj_pair]
  have h1 : tjP 0 0 0 0 0 0 = 1 := by
    rw [tjP, chordP_self, Real.rpow_zero]; norm_num
  simp [h1]

/-- C6 amended: for every alpha in [0,1] with alpha different from 0, a
coincident pair of points (zero Euclidean distance) makes the knot-spacing
sub-routine return tj = ti; at alpha = 0 it instead returns ti + 1 because
Python evaluates 0.0 ** 0.0 to 1.0. -/
theorem tj_coincident_eq_of_alpha_ne_zero (alpha ti x y : ℝ)
    (h : alpha ≠ 0) : tj alpha ti (.pair x y) (.pair x y) = .ok ti := by
  rw [tj_pair, tjP, chordP_self, Real.zero_rpow h, add_zero]

/-- Witness for the amended C6 at alpha = 1, ti = 5, coincident point
(2, 3). -/
theorem tj_coincident_eq_of_alpha_ne_zero_witness :
    ((1:ℝ) ≠ 0) ∧ tj 1 5 (.pair 2 3) (.pair 2 3) = .ok (5 : ℝ) :=
  ⟨one_ne_zero, tj_coincident_eq_of_alpha_ne_zero 1 5 2 3 one_ne_zero⟩

theorem catmull_rom_point_eq_blends (p0 p1 p2 p3 : PyVal)
    (t alpha t1 t2 t3 : ℝ)
    (hk : knots p0 p1 p2 p3 alpha = .ok (t1, t2, t3)) :
    catmull_rom_point p0 p1 p2 p3 t alpha =
      .ok (blends p0 p1 p2 p3 t 0 t1 t2 t3) := by
  unfold catmull_rom_point
  rw [hk]

theorem catmull_rom_point_remapSpec_eq_blends (p0 p1 p2 p3 : PyVal)
    (t alpha t1 t2 t3 : ℝ)
    (hk : knots p0 p1 p2 p3 alpha = .ok (t1, t2, t3)) :
    catmull_rom_point_remapSpec p0 p1 p2 p3 t alpha =
      .ok (blends p0 p1 p2 p3 (t1 + t * (t2 - t1)) 0 t1 t2 t3) := by
  unfold catmull_rom_point_remapSpec
  rw [hk]

theorem blends_eval (p0 p1 p2 p3 : PyVal) (t t0 t1 t2 t3 : ℝ)
    (a1 a2 a3 b1 b2 p : PyVal)
    (h1 : blend p0 p1 t0 t1 t = a1) (h2 : blend p1 p2 t1 t2 t = a2)
    (h3 : blend p2 p3 t2 t3 t = a3) (h4 : blend a1 a2 t0 t2 t = b1)
    (h5 : blend a2 a3 t1 t3 t = b2) (h6 : blend b1 b2 t1 t2 t = p) :
    blends p0 p1 p2 p3 t t0 t1 t2 t3 = p := by
  simp only [blends]
  rw [h1, h2, h3, h4, h5, h6]

theorem knots_demo :
    knots (.pair 0 0) (.pair 1 0) (.pair 2 1) (.pair 3 3) 0
      = .ok ((1:ℝ), (2:ℝ), (3:ℝ)) := by
  rw [knots_pair]
  norm_num [knot1, knot2, knot3, tjP, Real.rpow_zero]

theorem eval_demo_at_zero :
    catmull_rom_point (.pair 0 0) (.pair 1 0) (.pair 2 1) (.pair 3 3) 0 0
      = .ok (.pair 0 0) := by
  rw [catmull_rom_point_eq_blends _ _ _ _ _ _ _ _ _ knots_demo]
  refine congrArg Except.ok ?_
  have h1 : blend (.pair 0 0) (.pair 1 0) 0 1 0 = .pair 0 0 := by
    norm_num [blend, pyMul, pyAdd]
  have h2 : blend (.pair 1 0) (.pair 2 1) 1 2 0 = .pair 0 (-1) := by
    norm_num [blend, pyMul, pyAdd]
  have h3 : blend (.pair 2 1) (.pair 3 3) 2 3 0 = .pair 0 (-3) := by
    norm_num [blend, pyMul, pyAdd]
  have h4 : blend (.pair 0 0) (.pair 0 (-1)) 0 2 0 = .pair 0 0 := by
    norm_num [blend, pyMul, pyAdd]
  have h5 : blend (.pair 0 (-1)) (.pair 0 (-3)) 1 3 0 = .pair 0 0 := by
    norm_num [blend, pyMul, pyAdd]
  have h6 : blend (.pair 0 0) (.pair 0 0) 1 2 0 = .pair 0 0 :=
    blend_same (by norm_num) 0 0 0
  exact blends_eval _ _ _ _ _ _ _ _ _ _ _ _ _ _ _ h1 h2 h3 h4 h5 h6

theorem evalSpec_demo_at_zero :
    catmull_rom_point_remapSpec (.pair 0 0) (.pair 1 0) (.pair 2 1)
      (.pair 3 3) 0 0 = .ok (.pair 1 0) := by
  rw [catmull_rom_point_remapSpec_eq_blends _ _ _ _ _ _ _ _ _ knots_demo]
  rw [show (1:ℝ) + 0 * (2 - 1) = 1 by norm_num]
  refine congrArg Except.ok ?_
  have h1 : blend (.pair 0 0) (.pair 1 0) 0 1 1 = .pair 1 0 :=
    blend_hi (by norm_num) _ 1 0
  have h2 : blend (.pair 1 0) (.pair 2 1) 1 2 1 = .pair 1 0 :=
    blend_lo (by norm_num) 1 0 _
  have h3 : blend (.pair 2 1) (.pair 3 3) 2 3 1 = .pair 1 (-1) := by
    norm_num [blend, pyMul, pyAdd]
  have h4 : blend (.pair 1 0) (.pair 1 0) 0 2 1 = .pair 1 0 :=
    blend_same (by norm_num) 1 0 1
  have h5 : blend (.pair 1 0) (.pair 1 (-1)) 1 3 1 = .pair 1 0 :=
    blend_lo (by norm_num) 1 0 _
  have h6 : blend (.pair 1 0) (.pair 1 0) 1 2 1 = .pair 1 0 :=
    blend_same (by norm_num) 1 0 1
  exact blends_eval _ _ _ _ _ _ _ _ _ _ _ _ _ _ _ h1 h2 h3 h4 h5 h6

/-- C1 counterexample: for the valid ControlQuad (0,0), (1,0), (2,1), (3,3)
with alpha = 0 (so that the derived knots are 0, 1, 2, 3), the evaluator at
the normalized parameter t = 0 returns (0,0), not the interior control point
p1 = (1,0): the caller's t is used directly as the evaluation parameter, so
t = 0 lands on knot t0, not t1. -/
theorem catmullRomPoint_at_zero_ne_p1 :
    catmull_rom_point (.pair 0 0) (.pair 1 0) (.pair 2 1) (.pair 3 3) 0 0
      ≠ .ok (.pair 1 0) := by
  rw [eval_demo_at_zero]
  simp only [ne_eq, Except.ok.injEq, PyVal.pair.injEq]
  norm_num

/-- C2 counterexample: at the same valid input, the evaluator translated from
the source disagrees with the spec-mandated evaluator that remaps the blend
parameter to t1 + t * (t2 - t1): at t = 0 the source returns (0,0) while the
remapped evaluator returns p1 = (1,0). -/
theorem catmullRomPoint_ne_remapSpec_at_zero :
    catmull_rom_point (.pair 0 0) (.pair 1 0) (.pair 2 1) (.pair 3 3) 0 0
      ≠ catmull_rom_point_remapSpec (.pair 0 0) (.pair 1 0) (.pair 2 1)
          (.pair 3 3) 0 0 := by
  rw [eval_demo_at_zero, evalSpec_demo_at_zero]
  simp only [ne_eq, Except.ok.injEq, PyVal.pair.injEq]
  norm_num

/-- C4 counterexample: with alpha = 0 and the coincident interior pair
p1 = p2 = (1,0), no error of any kind is raised: Python evaluates
0.0 ** 0.0 to 1.0, so the degenerate chord still yields a unit knot interval
and the evaluator returns an ordinary point, (-2, 0) at t = 0. -/
theorem catmullRomPoint_coincident_alpha_zero_ok :
    catmull_rom_point (.pair 0 0) (.pair 1 0) (.pair 1 0) (.pair 2 0) 0 0
      = .ok (.pair (-2) 0) := by
  have hk : knots (.pair 0 0) (.pair 1 0) (.pair 1 0) (.pair 2 0) 0
      = .ok ((1:ℝ), (2:ℝ), (3:ℝ)) := by
    rw [knots_pair]
    norm_num [knot1, knot2, knot3, tjP, Real.rpow_zero]
  rw [catmull_rom_point_eq_blends _ _ _ _ _ _ _ _ _ hk]
  refine congrArg Except.ok ?_
  have h1 : blend (.pair 0 0) (.pair 1 0) 0 1 0 = .pair 0 0 := by
    norm_num [blend, pyMul, pyAdd]
  have h2 : blend (.pair 1 0) (.pair 1 0) 1 2 0 = .pair 1 0 :=
    blend_same (by norm_num) 1 0 0
  have h3 : blend (.pair 1 0) (.pair 2 0) 2 3 0 = .pair (-1) 0 := by
    norm_num [blend, pyMul, pyAdd]
  have h4 : blend (.pair 0 0) (.pair 1 0) 0 2 0 = .pair 0 0 := by
    norm_num [blend, pyMul, pyAdd]
  have h5 : blend (.pair 1 0) (.pair (-1) 0) 1 3 0 = .pair 2 0 := by
    norm_num [blend, pyMul, pyAdd]
  have h6 : blend (.pair 0 0) (.pair 2 0) 1 2 0 = .pair (-2) 0 := by
    norm_num [blend, pyMul, pyAdd]
  exact blends_eval _ _ _ _ _ _ _ _ _ _ _ _ _ _ _ h1 h2 h3 h4 h5 h6

/-- C4 amended: the evaluator never raises a DegenerateSegment and performs
no validation, eager or otherwise.  With alpha = 0 coincident consecutive
points still produce unit knot increments (Python evaluates 0.0 ** 0.0 to
1.0) and an ordinary point is returned.  With alpha > 0 the evaluator still
returns normally on 2-D points, but a coincident consecutive pair makes its
knot increment 0 ** alpha = 0, so the knot interval over which the affected
blend lines divide is zero-length: numpy evaluates those divisions to
non-finite values with only a RuntimeWarning, and the returned point is
meaningless rather than any error being raised. -/
theorem catmullRomPoint_coincident_returns_point
    (x0 y0 x1 y1 x2 y2 x3 y3 t alpha : ℝ) (ha : 0 < alpha) :
    (∃ w, catmull_rom_point (.pair x0 y0) (.pair x1 y1) (.pair x2 y2)
        (.pair x3 y3) t alpha = .ok w) ∧
    ((PyVal.pair x0 y0 = .pair x1 y1 → knot1 alpha x0 y0 x1 y1 - 0 = 0) ∧
     (PyVal.pair x1 y1 = .pair x2 y2 →
       knot2 alpha x0 y0 x1 y1 x2 y2 - knot1 alpha x0 y0 x1 y1 = 0) ∧
     (PyVal.pair x2 y2 = .pair x3 y3 →
       knot3 alpha x0 y0 x1 y1 x2 y2 x3 y3
         - knot2 alpha x0 y0 x1 y1 x2 y2 = 0)) := by
  have hane : alpha ≠ 0 := ne_of_gt ha
  refine ⟨⟨_, catmull_rom_point_eq_blends _ _ _ _ _ _ _ _ _
    (knots_pair alpha x0 y0 x1 y1 x2 y2 x3 y3)⟩, ?_, ?_, ?_⟩
  · intro h
    obtain ⟨hx, hy⟩ : x0 = x1 ∧ y0 = y1 := by
      simpa [PyVal.pair.injEq] using h
    rw [knot1, tjP, hx, hy, chordP_self, Real.zero_rpow hane]
    ring
  · intro h
    obtain ⟨hx, hy⟩ : x1 = x2 ∧ y1 = y2 := by
      simpa [PyVal.pair.injEq] using h
    rw [knot2, tjP, hx, hy, chordP_self, Real.zero_rpow hane]
    ring
  · intro h
    obtain ⟨hx, hy⟩ : x2 = x3 ∧ y2 = y3 := by
      simpa [PyVal.pair.injEq] using h
    rw [knot3, tjP, hx, hy, chordP_self, Real.zero_rpow hane]
    ring

/-- Witness for the amended C4 at alpha = 0.5 with p1 = p2 = (1,0). -/
theorem catmullRomPoint_coincident_returns_point_witness :
    ((0:ℝ) < 0.5) ∧
    ((∃ w, catmull_rom_point (.pair 0 0) (.pair 1 0) (.pair 1 0)
        (.pair 2 0) 0 0.5 = .ok w) ∧
     ((PyVal.pair 0 0 = .pair 1 0 → knot1 0.5 0 0 1 0 - 0 = 0) ∧
      (PyVal.pair 1 0 = .pair 1 0 →
        knot2 0.5 0 0 1 0 1 0 - knot1 0.5 0 0 1 0 = 0) ∧
      (PyVal.pair 1 0 = .pair 2 0 →
        knot3 0.5 0 0 1 0 1 0 2 0 - knot2 0.5 0 0 1 0 1 0 = 0))) :=
  ⟨by norm_num, catmullRomPoint_coincident_returns_point 0 0 1 0 1 0 2 0 0 0.5
    (by norm_num)⟩

/-- C1 amended: the evaluator does interpolate the two interior control
points exactly, but at the raw knot parameters rather than at the normalized
endpoints of the central interval: for every ControlQuad of pairwise-distinct
consecutive 2-D points and every alpha, evaluating at t = t1 returns exactly
p1 and evaluating at t = t2 returns exactly p2 (the caller's t is used in the
blends unchanged, so the normalized parameters 0 and 1 do not take these
roles). -/
theorem catmullRomPoint_interpolates_at_knots
    (x0 y0 x1 y1 x2 y2 x3 y3 alpha : ℝ)
    (h01 : (PyVal.pair x0 y0) ≠ .pair x1 y1)
    (h12 : (PyVal.pair x1 y1) ≠ .pair x2 y2)
    (h23 : (PyVal.pair x2 y2) ≠ .pair x3 y3) :
    catmull_rom_point (.pair x0 y0) (.pair x1 y1) (.pair x2 y2) (.pair x3 y3)
      (knot1 alpha x0 y0 x1 y1) alpha = .ok (.pair x1 y1) ∧
    catmull_rom_point (.pair x0 y0) (.pair x1 y1) (.pair x2 y2) (.pair x3 y3)
      (knot2 alpha x0 y0 x1 y1 x2 y2) alpha = .ok (.pair x2 y2) := by
  have d01 : ¬(x0 = x1 ∧ y0 = y1) := by
    rintro ⟨hx, hy⟩; exact h01 (by rw [hx, hy])
  have d12 : ¬(x1 = x2 ∧ y1 = y2) := by
    rintro ⟨hx, hy⟩; exact h12 (by rw [hx, hy])
  have d23 : ¬(x2 = x3 ∧ y2 = y3) := by
    rintro ⟨hx, hy⟩; exact h23 (by rw [hx, hy])
  set k1 := knot1 alpha x0 y0 x1 y1 with hk1
  set k2 := knot2 alpha x0 y0 x1 y1 x2 y2 with hk2
  set k3 := knot3 alpha x0 y0 x1 y1 x2 y2 x3 y3 with hk3
  have hpos1 : 0 < k1 := by rw [hk1, knot1]; exact tjP_lt d01 alpha 0
  have hlt12 : k1 < k2 := by rw [hk2, knot2, ← hk1]; exact tjP_lt d12 alpha k1
  have hlt23 : k2 < k3 := by rw [hk3, knot3, ← hk2]; exact tjP_lt d23 alpha k2
  have d10 : k1 - 0 ≠ 0 := by rw [sub_zero]; exact ne_of_gt hpos1
  have d21 : k2 - k1 ≠ 0 := sub_ne_zero.mpr (ne_of_gt hlt12)
  have d32 : k3 - k2 ≠ 0 := sub_ne_zero.mpr (ne_of_gt hlt23)
  have d20 : k2 - 0 ≠ 0 := by
    rw [sub_zero]; exact ne_of_gt (lt_trans hpos1 hlt12)
  have d31 : k3 - k1 ≠ 0 := sub_ne_zero.mpr (ne_of_gt (lt_trans hlt12 hlt23))
  constructor
  · rw [catmull_rom_point_eq_blends _ _ _ _ _ _ _ _ _
      (knots_pair alpha x0 y0 x1 y1 x2 y2 x3 y3)]
    refine congrArg Except.ok ?_
    exact blends_eval _ _ _ _ _ _ _ _ _ _ _ _ _ _ _
      (blend_hi d10 _ x1 y1) (blend_lo d21 x1 y1 _) rfl
      (blend_same d20 x1 y1 k1) (blend_lo d31 x1 y1 _)
      (blend_same d21 x1 y1 k1)
  · rw [catmull_rom_point_eq_blends _ _ _ _ _ _ _ _ _
      (knots_pair alpha x0 y0 x1 y1 x2 y2 x3 y3)]
    refine congrArg Except.ok ?_
    exact blends_eval _ _ _ _ _ _ _ _ _ _ _ _ _ _ _
      rfl (blend_hi d21 _ x2 y2) (blend_lo d32 x2 y2 _)
      (blend_hi d20 _ x2 y2) (blend_same d31 x2 y2 k2)
      (blend_same d21 x2 y2 k2)

/-- Witness for the amended C1 at the quad (0,0), (1,0), (2,1), (3,3) with
alpha = 0, whose knots are t1 = 1 and t2 = 2. -/
theorem catmullRomPoint_interpolates_at_knots_witness :
    ((PyVal.pair 0 0) ≠ (PyVal.pair 1 0)) ∧
    (catmull_rom_point (.pair 0 0) (.pair 1 0) (.pair 2 1) (.pair 3 3)
        (knot1 0 0 0 1 0) 0 = .ok (.pair 1 0) ∧
     catmull_rom_point (.pair 0 0) (.pair 1 0) (.pair 2 1) (.pair 3 3)
        (knot2 0 0 0 1 0 2 1) 0 = .ok (.pair 2 1)) :=
  ⟨by norm_num [PyVal.pair.injEq],
   catmullRomPoint_interpolates_at_knots 0 0 1 0 2 1 3 3 0
     (by norm_num [PyVal.pair.injEq]) (by norm_num [PyVal.pair.injEq])
     (by norm_num [PyVal.pair.injEq])⟩

/-- C2 amended: each blend of the evaluator uses the caller's t unchanged,
with no remapping into the central knot interval; equivalently, on 2-D points
the source evaluator agrees everywhere with the spec's remapped evaluator
applied at the inverse-remapped parameter (t - t1) / (t2 - t1). -/
theorem catmullRomPoint_eq_remapSpec_at_inverse_param
    (x0 y0 x1 y1 x2 y2 x3 y3 t alpha : ℝ) :
    catmull_rom_point (.pair x0 y0) (.pair x1 y1) (.pair x2 y2) (.pair x3 y3)
      t alpha =
    catmull_rom_point_remapSpec (.pair x0 y0) (.pair x1 y1) (.pair x2 y2)
      (.pair x3 y3)
      ((t - knot1 alpha x0 y0 x1 y1) /
        (knot2 alpha x0 y0 x1 y1 x2 y2 - knot1 alpha x0 y0 x1 y1))
      alpha := by
  rw [catmull_rom_point_eq_blends _ _ _ _ _ _ _ _ _
        (knots_pair alpha x0 y0 x1 y1 x2 y2 x3 y3),
      catmull_rom_point_remapSpec_eq_blends _ _ _ _ _ _ _ _ _
        (knots_pair alpha x0 y0 x1 y1 x2 y2 x3 y3)]
  set k1 := knot1 alpha x0 y0 x1 y1 with hk1
  set k2 := knot2 alpha x0 y0 x1 y1 x2 y2 with hk2
  by_cases h : k2 - k1 = 0
  · rw [blends_pair_zero_mid _ _ _ _ _ _ _ _ _ _ _ _ _ h,
      blends_pair_zero_mid _ _ _ _ _ _ _ _ _ _ _ _ _ h]
  · have hparam : k1 + (t - k1) / (k2 - k1) * (k2 - k1) = t := by
      rw [div_mul_cancel₀ _ h]; ring
    rw [hparam]

/-- C3 evidence (code bug): the value returned by `catmull_rom` never depends
on the y-channel `p_y`: replacing one length-4 y-channel by any other leaves
the result unchanged, because both output comprehensions read only `p_x`
(source line 43 passes `p_x`, not `p_y`); `p_y` is consulted only by the
length assertion. -/
theorem catmullRom_ignores_py (p_x : List PyVal)
    (q0 q1 q2 q3 r0 r1 r2 r3 : PyVal) (res : ℤ) (alpha : ℝ) :
    catmull_rom p_x [q0, q1, q2, q3] res alpha
      = catmull_rom p_x [r0, r1, r2, r3] res alpha := rfl

/-- C7 evidence (code bug): `catmull_rom` feeds the scalar x-channel entries
into the pair-unpacking knot routine `tj`, so no knot parameterization (2-D
or otherwise) is ever derived: with one sample requested, the call fails with
a TypeError raised by `xi, yi = pi` on a scalar. -/
theorem catmullRom_res_one_typeError :
    catmull_rom [.num 0, .num 1, .num 2, .num 3]
      [.num 0, .num 1, .num 0, .num 1] 1 0.5 = .error .typeError := rfl

/-- C8 evidence (code bug): for a resolution of 2 the sample grid is built,
but evaluating the first sample raises a TypeError (scalar x-coordinates
cannot be unpacked as 2-D points), so `catmull_rom` never returns the
requested number of points. -/
theorem catmullRom_res_two_typeError :
    catmull_rom [.num 0, .num 1, .num 2, .num 3]
      [.num 0, .num 0, .num 0, .num 0] 2 0 = .error .typeError := rfl

/-- C9 counterexample: resolution 0 raises nothing: the sample grid is empty
and `catmull_rom` returns two empty channels instead of an error. -/
theorem catmullRom_res_zero_ok_empty :
    catmull_rom [.num 0, .num 1, .num 2, .num 3]
      [.num 5, .num 6, .num 7, .num 8] 0 0 = .ok ([], []) := rfl

/-- C9 amended: a resolution of exactly 0 returns two empty sequences
without error; only a strictly negative resolution raises an error, namely
the ValueError produced by the numpy sample-grid construction (there is no
dedicated InvalidResolution error in the code). -/
theorem catmullRom_neg_res_valueError
    (q0 q1 q2 q3 r0 r1 r2 r3 : PyVal) (res : ℤ) (alpha : ℝ) (h : res < 0) :
    catmull_rom [q0, q1, q2, q3] [r0, r1, r2, r3] res alpha
      = .error .valueError := by
  have hc : ([q0, q1, q2, q3] : List PyVal).length
        = ([r0, r1, r2, r3] : List PyVal).length ∧
      ([r0, r1, r2, r3] : List PyVal).length = 4 := ⟨rfl, rfl⟩
  have hl : npLinspace01 res = .error .valueError := by
    unfold npLinspace01; rw [if_pos h]
  unfold catmull_rom
  rw [if_pos hc, hl]

/-- Witness for the amended C9 at resolution -1. -/
theorem catmullRom_neg_res_valueError_witness :
    ((-1 : ℤ) < 0) ∧
    catmull_rom [.num 0, .num 1, .num 2, .num 3]
      [.num 0, .num 0, .num 0, .num 0] (-1) 0 = .error .valueError :=
  ⟨by decide, catmullRom_neg_res_valueError _ _ _ _ _ _ _ _ (-1) 0 (by decide)⟩

/-- C10: whenever `catmull_rom` returns normally, its two channels are
element-wise identical: both comprehensions evaluate the same expression
over `p_x`. -/
theorem catmullRom_channels_eq (p_x p_y : List PyVal) (res : ℤ) (alpha : ℝ)
    (xs ys : List PyVal)
    (h : catmull_rom p_x p_y res alpha = .ok (xs, ys)) : xs = ys := by
  unfold catmull_rom at h
  split at h
  · split at h
    · exact Except.noConfusion h
    · split at h
      · exact Except.noConfusion h
      · split at h
        · exact Except.noConfusion h
        · rename_i ts hts x hx2 y hy3
          injection hy3 with hxy
          injection h with hp
          injection hp with hxs hys
          rw [← hxs, ← hys]
          exact hxy
  · exact Except.noConfusion h

/-- Witness for C10 at resolution 0, where `catmull_rom` returns normally
with two empty channels. -/
theorem catmullRom_channels_eq_witness :
    (catmull_rom [.num 0, .num 1, .num 2, .num 3]
        [.num 0, .num 1, .num 2, .num 3] 0 0 = .ok ([], [])) ∧
    ([] : List PyVal) = [] :=
  ⟨rfl, catmullRom_channels_eq [.num 0, .num 1, .num 2, .num 3]
    [.num 0, .num 1, .num 2, .num 3] 0 0 [] [] rfl⟩
